import Mathlib

/-!
Verification of the feed-generation logic of `src/simple-rss.js`
(a Shopify-catalog → RSS 2.0 feed service).

The JavaScript source is shallowly embedded below:

* `stripTags`, `decodeEntities`, `collapseWs`, `trimWs`, `cleanDescription`
  embed `SimpleRSSGenerator.cleanDescription` (strings as `List Char`,
  one code point per character);
* `createRSSItem` and `generateRSS` embed the corresponding methods,
  with the feed represented as the structured channel object handed to the
  XML builder (the builder serializes that object deterministically, so
  equal channel objects yield equal XML documents); the call
  `new Date(...).toUTCString()` is abstracted as a date-formatting
  parameter `fmtDate`, and the generation instant as a parameter `now`;
* `rssHandler`, `pinterestHandler`, `countHandler` embed the three data
  endpoints; the upstream `getAllProducts` result is a parameter of type
  `Except String (List Product)` and each handler also returns the number
  of upstream calls it performs.

JavaScript falsiness of the optional string fields (`body_html`,
`description`, `product_type`, `tags`, config fields, env vars) is modelled
by the empty string, which is exactly how those fields are consumed.
-/

namespace SimpleRSS

/-- The apostrophe character, written via its code point. -/
def apos : Char := Char.ofNat 39

/-- Character class of the JavaScript regular-expression `\s`
(whitespace as used by `replace(/\s+/g, ' ')` and `String.prototype.trim`). -/
def jsSpace (c : Char) : Bool :=
  c == ' ' || c == '\t' || c == '\n' || c == Char.ofNat 11 || c == Char.ofNat 12 ||
  c == '\r' || c == Char.ofNat 160 || c == Char.ofNat 0x1680 ||
  (0x2000 ≤ c.toNat && c.toNat ≤ 0x200a) || c == Char.ofNat 0x2028 ||
  c == Char.ofNat 0x2029 || c == Char.ofNat 0x202f || c == Char.ofNat 0x205f ||
  c == Char.ofNat 0x3000 || c == Char.ofNat 0xfeff

/-- Boolean list-prefix test (used to find pattern matches during replacement). -/
def isPrefixB : List Char → List Char → Bool
  | [], _ => true
  | _ :: _, [] => false
  | p :: ps, c :: cs => p == c && isPrefixB ps cs

/-- Worker for `replaceAll`: the `Nat` argument counts characters of an
already-reported match that still have to be skipped.  This makes the
left-to-right, non-overlapping global replacement of JavaScript
`String.prototype.replace` with a literal pattern structurally recursive. -/
def replaceAllAux (pat rep : List Char) : Nat → List Char → List Char
  | _ + 1, [] => []
  | n + 1, _ :: cs => replaceAllAux pat rep n cs
  | 0, [] => []
  | 0, c :: cs =>
    if isPrefixB pat (c :: cs) then
      rep ++ replaceAllAux pat rep (pat.length - 1) cs
    else
      c :: replaceAllAux pat rep 0 cs

/-- JavaScript `s.replace(/pat/g, rep)` for a literal pattern `pat`:
replace every non-overlapping occurrence, scanning left to right. -/
def replaceAll (pat rep s : List Char) : List Char :=
  replaceAllAux pat rep 0 s

/-- Worker for `stripTags`.  `buf = some b` means we are inside a potential
tag: `b` holds (reversed) the characters consumed since the opening `<`.
An unclosed `<...` is flushed back verbatim at the end of input, matching
the fact that `/<[^>]*>/` requires a closing `>`. -/
def stripTagsAux : Option (List Char) → List Char → List Char
  | none, [] => []
  | some buf, [] => buf.reverse
  | none, c :: cs =>
    if c == '<' then stripTagsAux (some ['<']) cs
    else c :: stripTagsAux none cs
  | some buf, c :: cs =>
    if c == '>' then stripTagsAux none cs
    else stripTagsAux (some (c :: buf)) cs

/-- `html.replace(/<[^>]*>/g, '')`: remove every substring starting at a `<`
and ending at the next `>` (the regex engine's leftmost match of `<[^>]*>`). -/
def stripTags (s : List Char) : List Char :=
  stripTagsAux none s

/-- The literal pattern `&amp;`. -/
def ampPat : List Char := ['&', 'a', 'm', 'p', ';']
/-- The literal pattern `&lt;`. -/
def ltPat : List Char := ['&', 'l', 't', ';']
/-- The literal pattern `&gt;`. -/
def gtPat : List Char := ['&', 'g', 't', ';']
/-- The literal pattern `&quot;`. -/
def quotPat : List Char := ['&', 'q', 'u', 'o', 't', ';']
/-- The literal pattern `&#39;`. -/
def aposPat : List Char := ['&', '#', '3', '9', ';']
/-- The literal pattern `&nbsp;`. -/
def nbspPat : List Char := ['&', 'n', 'b', 's', 'p', ';']

/-- The six chained `.replace` calls of `cleanDescription`, applied in source
order: `&amp;` first, then `&lt;`, `&gt;`, `&quot;`, `&#39;`, `&nbsp;`. -/
def decodeEntities (s : List Char) : List Char :=
  replaceAll nbspPat [' ']
    (replaceAll aposPat [apos]
      (replaceAll quotPat ['"']
        (replaceAll gtPat ['>']
          (replaceAll ltPat ['<']
            (replaceAll ampPat ['&'] s)))))

/-- Worker for `collapseWs`; the flag records whether the previous character
belonged to a whitespace run whose single replacement space was already
emitted. -/
def collapseAux : Bool → List Char → List Char
  | _, [] => []
  | b, c :: cs =>
    if jsSpace c then
      if b then collapseAux true cs else ' ' :: collapseAux true cs
    else
      c :: collapseAux false cs

/-- `clean.replace(/\s+/g, ' ')`: collapse every whitespace run to one space. -/
def collapseWs (s : List Char) : List Char :=
  collapseAux false s

/-- JavaScript `String.prototype.trim`: drop leading and trailing whitespace. -/
def trimWs (s : List Char) : List Char :=
  (((s.dropWhile jsSpace).reverse).dropWhile jsSpace).reverse

/-- The sanitization pipeline of `cleanDescription` before the length check:
tag strip, six entity replacements, whitespace collapse, trim. -/
def sanitize (html : List Char) : List Char :=
  trimWs (collapseWs (decodeEntities (stripTags html)))

/-- The three-dot ellipsis marker `'...'` appended on truncation. -/
def ellipsis : List Char := ['.', '.', '.']

/-- `SimpleRSSGenerator.cleanDescription`: falsy input yields `''`; otherwise
sanitize, then truncate to 497 characters plus `'...'` when the result
exceeds 500 characters. -/
def cleanDescription (html : List Char) : List Char :=
  if html = [] then []
  else if 500 < (sanitize html).length then (sanitize html).take 497 ++ ellipsis
  else sanitize html

/-- `cleanDescription` on Lean strings (the item fields are strings). -/
def cleanDescriptionS (s : String) : String :=
  String.mk (cleanDescription s.toList)

/-- JavaScript `String.prototype.trim` on Lean strings. -/
def jsTrimS (s : String) : String :=
  String.mk (trimWs s.toList)

/-- JavaScript `tags.split(',')`: split at every comma, keeping empty
segments (`"a,b,"` ↦ `["a","b",""]`, `""` ↦ `[""]`). -/
def splitOnComma : List Char → List (List Char)
  | [] => [[]]
  | c :: cs =>
    if c == ',' then [] :: splitOnComma cs
    else
      match splitOnComma cs with
      | [] => [[c]]
      | t :: ts => (c :: t) :: ts

/-- `product.tags.split(',').map(tag => tag.trim())`. -/
def splitTags (tags : String) : List String :=
  (splitOnComma tags.toList).map (fun t => String.mk (trimWs t))

/-- A product image (`image.src`). -/
structure Image where
  src : String
deriving DecidableEq

/-- A product variant (`variant.price`). -/
structure Variant where
  price : String
deriving DecidableEq

/-- A catalog item as consumed from the upstream payload.  The optional
string fields use `""` for a missing (falsy) value, which is exactly how
the source consumes them; missing `images`/`variants` arrays behave like
`[]` under the source's `x && x.length > 0` guards. -/
structure Product where
  title : String
  body_html : String
  description : String
  handle : String
  updated_at : String
  images : List Image
  variants : List Variant
  product_type : String
  tags : String
deriving DecidableEq

/-- The `config` record passed to `generateRSS`; `""` is a falsy field. -/
structure FeedConfig where
  title : String
  description : String
  link : String
  language : String
deriving DecidableEq

/-- One `media:content` entry (`url`, `type`, `medium` attributes). -/
structure MediaContent where
  url : String
  type : String
  medium : String
deriving DecidableEq

/-- The per-item object built by `createRSSItem`.  Optional RSS fields are
`Option`-valued: `none` means the key is absent from the emitted item. -/
structure RSSItem where
  title : String
  description : String
  link : String
  guidIsPermaLink : Bool
  guid : String
  pubDate : String
  creator : String
  mediaContent : Option (List MediaContent)
  mediaThumbnail : Option String
  mediaPrice : Option (String × String)
  category : Option String
  subject : Option (List String)
deriving DecidableEq

/-- The `channel` object handed to the XML builder by `generateRSS`. -/
structure RSSChannel where
  title : String
  description : String
  link : String
  language : String
  lastBuildDate : String
  generator : String
  items : List RSSItem
deriving DecidableEq

/-- `SimpleRSSGenerator.createRSSItem(product, config)`; `fmtDate` abstracts
`ts => new Date(ts).toUTCString()`. -/
def createRSSItem (fmtDate : String → String) (product : Product)
    (config : FeedConfig) : RSSItem :=
  let baseUrl := if config.link = "" then "https://shop.myshopify.com" else config.link
  { title := product.title
    description := cleanDescriptionS
      (if product.body_html = "" then product.description else product.body_html)
    link := baseUrl ++ "/products/" ++ product.handle
    guidIsPermaLink := true
    guid := baseUrl ++ "/products/" ++ product.handle
    pubDate := fmtDate product.updated_at
    creator := if config.title = "" then "Mağaza Ürünleri" else config.title
    mediaContent :=
      if product.images = [] then none
      else some (product.images.map (fun image =>
        { url := image.src, type := "image/jpeg", medium := "image" }))
    mediaThumbnail :=
      match product.images with
      | [] => none
      | image :: _ => some image.src
    mediaPrice :=
      match product.variants with
      | [] => none
      | variant :: _ => some ("TRY", variant.price)
    category := if product.product_type = "" then none else some product.product_type
    subject := if product.tags = "" then none else some (splitTags product.tags) }

/-- `SimpleRSSGenerator.generateRSS(products, config)`: the channel object
handed to `xml2js.Builder.buildObject` (serialization of that object is
deterministic, so two equal channels give the same XML document);
`now` abstracts `new Date().toUTCString()` at the generation instant. -/
def generateRSS (fmtDate : String → String) (now : String)
    (products : List Product) (config : FeedConfig) : RSSChannel :=
  { title := if config.title = "" then "Mağaza Ürünleri" else config.title
    description :=
      if config.description = "" then "Mağazamızdaki tüm ürünler" else config.description
    link := if config.link = "" then "https://shop.myshopify.com" else config.link
    language := if config.language = "" then "tr" else config.language
    lastBuildDate := now
    generator := "Simple Shopify RSS Generator"
    items := products.map (fun product => createRSSItem fmtDate product config) }

/-- The environment variables the endpoints read; `""` models an unset
(falsy) variable. -/
structure Env where
  shopDomain : String
  accessToken : String
  rssTitle : String
  rssDescription : String
deriving DecidableEq

/-- Outcome of a feed endpoint: a JSON error response or the built channel. -/
inductive RssResult where
  | err (status : Nat) (error : String) (message : String)
  | feed (channel : RSSChannel)
deriving DecidableEq

/-- Outcome of `/api/products/count`. -/
inductive CountResult where
  | err (status : Nat) (error : String) (message : String)
  | ok (count : Nat) (message : String)
deriving DecidableEq

/-- The `error` field of the missing-configuration 500 response. -/
def configErrorLabel : String := "Shopify konfigürasyonu eksik"

/-- The `message` field of the missing-configuration 500 response
(apostrophe spelled via its code point). -/
def configErrorMessage : String :=
  "SHOPIFY_SHOP_DOMAIN ve SHOPIFY_ACCESS_TOKEN environment variables" ++
    String.mk [apos] ++ "larını ayarlayın"

/-- The config record both feed handlers build from the environment. -/
def envConfig (env : Env) : FeedConfig :=
  { title := if env.rssTitle = "" then "Mağaza Ürünleri" else env.rssTitle
    description :=
      if env.rssDescription = "" then "Mağazamızdaki tüm ürünler" else env.rssDescription
    link := "https://" ++ env.shopDomain
    language := "tr" }

/-- The `GET /rss` handler.  `upstream` is the result of the one
`getAllProducts()` call; the second component counts how many upstream
calls were performed. -/
def rssHandler (fmtDate : String → String) (now : String) (env : Env)
    (upstream : Except String (List Product)) : RssResult × Nat :=
  if env.shopDomain = "" ∨ env.accessToken = "" then
    (.err 500 configErrorLabel configErrorMessage, 0)
  else
    match upstream with
    | .error msg => (.err 500 "RSS feed oluşturulamadı" msg, 1)
    | .ok products => (.feed (generateRSS fmtDate now products (envConfig env)), 1)

/-- The `GET /rss/pinterest` handler (identical to `/rss` except for the
error label of an upstream failure). -/
def pinterestHandler (fmtDate : String → String) (now : String) (env : Env)
    (upstream : Except String (List Product)) : RssResult × Nat :=
  if env.shopDomain = "" ∨ env.accessToken = "" then
    (.err 500 configErrorLabel configErrorMessage, 0)
  else
    match upstream with
    | .error msg => (.err 500 "Pinterest RSS feed oluşturulamadı" msg, 1)
    | .ok products => (.feed (generateRSS fmtDate now products (envConfig env)), 1)

/-- The `GET /api/products/count` handler. -/
def countHandler (env : Env)
    (upstream : Except String (List Product)) : CountResult × Nat :=
  if env.shopDomain = "" ∨ env.accessToken = "" then
    (.err 500 configErrorLabel configErrorMessage, 0)
  else
    match upstream with
    | .error msg => (.err 500 "Ürün sayısı alınamadı" msg, 1)
    | .ok products =>
      (.ok products.length (toString products.length ++ " aktif ürün bulundu"), 1)

/-- `pat` occurs in `s` as a contiguous substring. -/
def Occurs (pat s : List Char) : Prop := ∃ l r, s = l ++ pat ++ r

/-- Boolean substring-occurrence test, matching `Occurs`. -/
def occursB (pat : List Char) : List Char → Bool
  | [] => pat.isEmpty
  | c :: cs => isPrefixB pat (c :: cs) || occursB pat cs

/-- Boolean test for an HTML tag substring: some `<` with a later `>`. -/
def hasTag : List Char → Bool
  | [] => false
  | c :: cs => ((c == '<') && cs.any (fun d => d == '>')) || hasTag cs

/-- `s` contains no substring matching `<[^>]*>`; equivalently, no `<` in
`s` is followed anywhere later by a `>` (any such pair would contain a
leftmost-closed tag match). -/
def NoTag (s : List Char) : Prop := ¬ ∃ l m r, s = l ++ '<' :: (m ++ '>' :: r)

theorem isPrefixB_iff (p : List Char) : ∀ s, isPrefixB p s = true ↔ ∃ t, s = p ++ t := by
  induction p with
  | nil => intro s; simp [isPrefixB]
  | cons a ps ih =>
    intro s
    cases s with
    | nil => simp [isPrefixB]
    | cons c cs =>
      simp only [isPrefixB, Bool.and_eq_true, beq_iff_eq, ih, List.cons_append,
        List.cons.injEq]
      constructor
      · rintro ⟨rfl, t, rfl⟩; exact ⟨t, rfl, rfl⟩
      · rintro ⟨t, rfl, rfl⟩; exact ⟨rfl, t, rfl⟩

theorem occurs_nil (pat : List Char) : Occurs pat [] ↔ pat = [] := by
  constructor
  · rintro ⟨l, r, h⟩
    have h' := h.symm
    simp only [List.append_eq_nil] at h'
    exact h'.1.2
  · rintro rfl; exact ⟨[], [], rfl⟩

theorem occurs_cons (pat : List Char) (c : Char) (cs : List Char) :
    Occurs pat (c :: cs) ↔ (∃ t, c :: cs = pat ++ t) ∨ Occurs pat cs := by
  constructor
  · rintro ⟨l, r, h⟩
    cases l with
    | nil => exact Or.inl ⟨r, by simpa using h⟩
    | cons x l' =>
      rw [List.cons_append, List.cons_append, List.cons.injEq] at h
      exact Or.inr ⟨l', r, h.2⟩
  · rintro (⟨t, h⟩ | ⟨l, r, h⟩)
    · exact ⟨[], t, by simpa using h⟩
    · exact ⟨c :: l, r, by simp [h]⟩

theorem occursB_iff (pat : List Char) : ∀ s, occursB pat s = true ↔ Occurs pat s := by
  intro s
  induction s with
  | nil => simp [occursB, occurs_nil, List.isEmpty_iff]
  | cons c cs ih =>
    rw [occurs_cons]
    simp [occursB, isPrefixB_iff, ih]

theorem occursB_eq_false (pat s : List Char) : occursB pat s = false ↔ ¬ Occurs pat s := by
  rw [← occursB_iff]
  cases occursB pat s <;> simp

theorem noTag_nil : NoTag [] := by
  rintro ⟨l, m, r, h⟩
  simp at h

theorem noTag_cons (c : Char) (cs : List Char) :
    NoTag (c :: cs) ↔ (c = '<' → '>' ∉ cs) ∧ NoTag cs := by
  constructor
  · intro h
    refine ⟨?_, ?_⟩
    · rintro rfl hmem
      obtain ⟨u, v, huv⟩ := List.append_of_mem hmem
      exact h ⟨[], u, v, by simp [huv]⟩
    · rintro ⟨l, m, r, rfl⟩
      exact h ⟨c :: l, m, r, rfl⟩
  · rintro ⟨h1, h2⟩ ⟨l, m, r, hdec⟩
    cases l with
    | nil =>
      rw [List.nil_append, List.cons.injEq] at hdec
      exact h1 hdec.1 (hdec.2 ▸ List.mem_append_right m (List.mem_cons_self '>' r))
    | cons x l' =>
      rw [List.cons_append, List.cons.injEq] at hdec
      exact h2 ⟨l', m, r, hdec.2⟩

theorem hasTag_eq_false (s : List Char) : hasTag s = false ↔ NoTag s := by
  induction s with
  | nil => simpa [hasTag] using noTag_nil
  | cons c cs ih =>
    rw [noTag_cons, ← ih]
    simp only [hasTag, Bool.or_eq_false_iff, Bool.and_eq_false_iff, beq_eq_false_iff_ne,
      ne_eq, List.any_eq_false, beq_iff_eq]
    constructor
    · rintro ⟨h1 | h1, h2⟩
      · exact ⟨fun hc => absurd hc h1, h2⟩
      · exact ⟨fun _ hmem => h1 '>' hmem rfl, h2⟩
    · rintro ⟨h1, h2⟩
      refine ⟨?_, h2⟩
      by_cases hc : c = '<'
      · exact Or.inr (fun d hd hdgt => h1 hc (hdgt ▸ hd))
      · exact Or.inl hc

theorem replaceAllAux_id (pat rep : List Char) :
    ∀ s, ¬ Occurs pat s → replaceAllAux pat rep 0 s = s := by
  intro s
  induction s with
  | nil => intro _; rfl
  | cons c cs ih =>
    intro h
    have h1 : ¬ ∃ t, c :: cs = pat ++ t := fun hx =>
      h ((occurs_cons pat c cs).mpr (Or.inl hx))
    have h2 : ¬ Occurs pat cs := fun hx =>
      h ((occurs_cons pat c cs).mpr (Or.inr hx))
    have hp : isPrefixB pat (c :: cs) = false := by
      cases hb : isPrefixB pat (c :: cs)
      · rfl
      · exact absurd ((isPrefixB_iff pat (c :: cs)).mp hb) h1
    rw [replaceAllAux, if_neg (by simp [hp]), ih h2]

theorem replaceAll_id (pat rep s : List Char) (h : ¬ Occurs pat s) :
    replaceAll pat rep s = s :=
  replaceAllAux_id pat rep s h

theorem decodeEntities_id (s : List Char)
    (hamp : ¬ Occurs ampPat s) (hlt : ¬ Occurs ltPat s) (hgt : ¬ Occurs gtPat s)
    (hquot : ¬ Occurs quotPat s) (hapos : ¬ Occurs aposPat s)
    (hnbsp : ¬ Occurs nbspPat s) : decodeEntities s = s := by
  rw [decodeEntities, replaceAll_id _ _ _ hamp, replaceAll_id _ _ _ hlt,
    replaceAll_id _ _ _ hgt, replaceAll_id _ _ _ hquot,
    replaceAll_id _ _ _ hapos, replaceAll_id _ _ _ hnbsp]

theorem stripTagsAux_flush :
    ∀ (s b : List Char), '>' ∉ s → stripTagsAux (some b) s = b.reverse ++ s := by
  intro s
  induction s with
  | nil => intro b _; simp [stripTagsAux]
  | cons c cs ih =>
    intro b h
    have hc : (c == '>') = false := by
      simp only [beq_eq_false_iff_ne, ne_eq]
      exact fun heq => h (heq ▸ List.mem_cons_self c cs)
    rw [stripTagsAux, if_neg (by simp [hc]), ih (c :: b) (fun hm => h (List.mem_cons_of_mem c hm))]
    simp

theorem stripTags_id : ∀ s, NoTag s → stripTags s = s := by
  intro s
  induction s with
  | nil => intro _; rfl
  | cons c cs ih =>
    intro h
    obtain ⟨h1, h2⟩ := (noTag_cons c cs).mp h
    by_cases hc : c = '<'
    · subst hc
      rw [stripTags, stripTagsAux, if_pos (by simp), stripTagsAux_flush cs ['<'] (h1 rfl)]
      simp
    · rw [stripTags, stripTagsAux, if_neg (by simp [hc])]
      exact congrArg (c :: ·) (ih h2)

/-- Modelled from the spec: the sanitization rule "Decode exactly six named
HTML entities: `&amp;`→`&`, `&lt;`→`<`, `&gt;`→`>`, `&quot;`→`"`,
`&#39;`→`'`, `&nbsp;`→space.  No other entities (numeric or named) are
decoded." as a single simultaneous left-to-right pass that replaces
exactly the six listed entities and copies everything else unchanged;
used to compare the claimed decoding against the source's chained
replacements. -/
def specEntityDecode : List Char → List Char
  | '&' :: 'a' :: 'm' :: 'p' :: ';' :: rest => '&' :: specEntityDecode rest
  | '&' :: 'l' :: 't' :: ';' :: rest => '<' :: specEntityDecode rest
  | '&' :: 'g' :: 't' :: ';' :: rest => '>' :: specEntityDecode rest
  | '&' :: 'q' :: 'u' :: 'o' :: 't' :: ';' :: rest => '"' :: specEntityDecode rest
  | '&' :: '#' :: '3' :: '9' :: ';' :: rest => Char.ofNat 39 :: specEntityDecode rest
  | '&' :: 'n' :: 'b' :: 's' :: 'p' :: ';' :: rest => ' ' :: specEntityDecode rest
  | c :: rest => c :: specEntityDecode rest
  | [] => []

theorem occurs_mem (pat s : List Char) (h : Occurs pat s) {c : Char}
    (hc : c ∈ pat) : c ∈ s := by
  obtain ⟨l, r, rfl⟩ := h
  exact List.mem_append_left r (List.mem_append_right l hc)

theorem append_singleton_cases (x : Char) :
    ∀ (bs as t : List Char), x ∉ as → x ∉ bs →
      as ++ [x] = bs ++ (x :: t) → as = bs ∧ t = [] := by
  intro bs
  induction bs with
  | nil =>
    intro as t ha _ h
    cases as with
    | nil =>
      simp only [List.nil_append, List.cons.injEq] at h
      exact ⟨rfl, h.2.symm⟩
    | cons a as' =>
      rw [List.cons_append, List.nil_append, List.cons.injEq] at h
      exact absurd (h.1 ▸ List.mem_cons_self a as') ha
  | cons b bs' ih =>
    intro as t ha hb h
    cases as with
    | nil =>
      rw [List.nil_append, List.cons_append, List.cons.injEq] at h
      exact absurd (h.1.symm ▸ List.mem_cons_self b bs') hb
    | cons a as' =>
      rw [List.cons_append, List.cons_append, List.cons.injEq] at h
      obtain ⟨rfl, h2⟩ := h
      obtain ⟨h3, h4⟩ := ih as' t (fun hm => ha (List.mem_cons_of_mem _ hm))
        (fun hm => hb (List.mem_cons_of_mem _ hm)) h2
      exact ⟨by rw [h3], h4⟩

/-- A six-entity pattern `'&' mid ';'` cannot occur inside a differently
named entity `'&' name ';'` when neither interior contains `&` or `;`. -/
theorem entity_shape_not_occurs (mid name : List Char) (hmid : ';' ∉ mid)
    (hamp : '&' ∉ name) (hsemi : ';' ∉ name) (hne : mid ≠ name) :
    ¬ Occurs ('&' :: (mid ++ [';'])) ('&' :: (name ++ [';'])) := by
  intro hocc
  rcases (occurs_cons _ _ _).mp hocc with ⟨t, ht⟩ | htail
  · rw [List.cons_append, List.cons.injEq] at ht
    have h2 : name ++ [';'] = mid ++ (';' :: t) := by
      rw [ht.2, List.append_assoc]
      rfl
    exact hne ((append_singleton_cases ';' mid name t hsemi hmid h2).1).symm
  · have hmem : '&' ∈ name ++ [';'] :=
      occurs_mem _ _ htail (List.mem_cons_self '&' _)
    rcases List.mem_append.mp hmem with h | h
    · exact hamp h
    · exact absurd h (by decide)

/-- An entity-shaped string that is not one of the six decoded entities
passes through the source's chained replacements unchanged. -/
theorem decodeEntities_entity (name : List Char) (h0 : name ≠ [])
    (hamp : '&' ∉ name) (hsemi : ';' ∉ name)
    (h1 : name ≠ ['a', 'm', 'p']) (h2 : name ≠ ['l', 't'])
    (h3 : name ≠ ['g', 't']) (h4 : name ≠ ['q', 'u', 'o', 't'])
    (h5 : name ≠ ['#', '3', '9']) (h6 : name ≠ ['n', 'b', 's', 'p']) :
    decodeEntities ('&' :: (name ++ [';'])) = '&' :: (name ++ [';']) := by
  have _ := h0
  exact decodeEntities_id _
    (entity_shape_not_occurs ['a', 'm', 'p'] name (by decide) hamp hsemi (Ne.symm h1))
    (entity_shape_not_occurs ['l', 't'] name (by decide) hamp hsemi (Ne.symm h2))
    (entity_shape_not_occurs ['g', 't'] name (by decide) hamp hsemi (Ne.symm h3))
    (entity_shape_not_occurs ['q', 'u', 'o', 't'] name (by decide) hamp hsemi (Ne.symm h4))
    (entity_shape_not_occurs ['#', '3', '9'] name (by decide) hamp hsemi (Ne.symm h5))
    (entity_shape_not_occurs ['n', 'b', 's', 'p'] name (by decide) hamp hsemi (Ne.symm h6))

/-- C4 (counterexample): the entity-decoding step is NOT the exact-six
decode the claim describes: on input `"&amp;lt;"` the source's chained
replacements produce `"<"` (the `&` produced by the `&amp;` replacement
recombines into `&lt;` and is decoded again), while decoding exactly the
six entities and nothing else yields `"&lt;"`. -/
theorem c4_counterexample :
    decodeEntities ("&amp;lt;".toList) = "<".toList ∧
    specEntityDecode ("&amp;lt;".toList) = "&lt;".toList ∧
    decodeEntities ("&amp;lt;".toList) ≠ specEntityDecode ("&amp;lt;".toList) := by
  refine ⟨?_, ?_, ?_⟩ <;> decide

/-- C4 (amended): the decoding step applies the six replacements
sequentially (`&amp;` first).  Each of the six entities standing alone is
decoded to its character, and any other entity-shaped string `'&' name ';'`
(nonempty name free of `&`/`;`, not one of the six) standing alone passes
through unchanged; but because the replacements are chained, text produced
by the `&amp;` replacement can itself be decoded by a later replacement,
e.g. `"&amp;lt;"` yields `"<"` rather than `"&lt;"`. -/
theorem c4_entity_decoding (name : List Char) (h0 : name ≠ [])
    (hamp : '&' ∉ name) (hsemi : ';' ∉ name)
    (h1 : name ≠ ['a', 'm', 'p']) (h2 : name ≠ ['l', 't'])
    (h3 : name ≠ ['g', 't']) (h4 : name ≠ ['q', 'u', 'o', 't'])
    (h5 : name ≠ ['#', '3', '9']) (h6 : name ≠ ['n', 'b', 's', 'p']) :
    decodeEntities ampPat = ['&'] ∧ decodeEntities ltPat = ['<'] ∧
    decodeEntities gtPat = ['>'] ∧ decodeEntities quotPat = ['"'] ∧
    decodeEntities aposPat = [apos] ∧ decodeEntities nbspPat = [' '] ∧
    decodeEntities ('&' :: (name ++ [';'])) = '&' :: (name ++ [';']) ∧
    decodeEntities ("&amp;lt;".toList) = "<".toList :=
  ⟨by decide, by decide, by decide, by decide, by decide, by decide,
    decodeEntities_entity name h0 hamp hsemi h1 h2 h3 h4 h5 h6, by decide⟩

/-- Witness for `c4_entity_decoding`: the entity `&copy;` is unchanged. -/
theorem c4_entity_decoding_witness :
    decodeEntities ('&' :: (['c', 'o', 'p', 'y'] ++ [';'])) =
      '&' :: (['c', 'o', 'p', 'y'] ++ [';']) :=
  (c4_entity_decoding ['c', 'o', 'p', 'y'] (by decide) (by decide) (by decide)
    (by decide) (by decide) (by decide) (by decide) (by decide)
    (by decide)).2.2.2.2.2.2.1

/-- `true` iff the list is empty or starts with a non-whitespace character. -/
def headNotWs : List Char → Bool
  | [] => true
  | c :: _ => !(jsSpace c)

/-- A list is collapsed when every whitespace character in it is a plain
space and no two whitespace characters are adjacent (the shape `collapseWs`
produces). -/
def collapsedB : List Char → Bool
  | [] => true
  | c :: cs => (if jsSpace c then c == ' ' && headNotWs cs else true) && collapsedB cs

theorem collapseAux_ws_false (c : Char) (cs : List Char) (hc : jsSpace c = true) :
    collapseAux false (c :: cs) = ' ' :: collapseAux true cs := by
  simp [collapseAux, hc]

theorem collapseAux_ws_true (c : Char) (cs : List Char) (hc : jsSpace c = true) :
    collapseAux true (c :: cs) = collapseAux true cs := by
  simp [collapseAux, hc]

theorem collapseAux_nonws (b : Bool) (c : Char) (cs : List Char)
    (hc : jsSpace c = false) :
    collapseAux b (c :: cs) = c :: collapseAux false cs := by
  simp [collapseAux, hc]

theorem collapseAux_nil (b : Bool) : collapseAux b [] = [] := by
  cases b <;> rfl

theorem collapseAux_mem : ∀ (s : List Char) (b : Bool) (x : Char),
    x ∈ collapseAux b s → x = ' ' ∨ x ∈ s := by
  intro s
  induction s with
  | nil => intro b x hx; rw [collapseAux_nil] at hx; simp at hx
  | cons c cs ih =>
    intro b x hx
    by_cases hc : jsSpace c = true
    · cases b
      · rw [collapseAux_ws_false c cs hc] at hx
        rcases List.mem_cons.mp hx with h | h
        · exact Or.inl h
        · rcases ih true x h with h' | h'
          · exact Or.inl h'
          · exact Or.inr (List.mem_cons_of_mem c h')
      · rw [collapseAux_ws_true c cs hc] at hx
        rcases ih true x hx with h' | h'
        · exact Or.inl h'
        · exact Or.inr (List.mem_cons_of_mem c h')
    · have hc' : jsSpace c = false := by simpa using hc
      rw [collapseAux_nonws b c cs hc'] at hx
      rcases List.mem_cons.mp hx with h | h
      · exact Or.inr (h ▸ List.mem_cons_self c cs)
      · rcases ih false x h with h' | h'
        · exact Or.inl h'
        · exact Or.inr (List.mem_cons_of_mem c h')

theorem noTag_collapseAux : ∀ (s : List Char) (b : Bool),
    NoTag s → NoTag (collapseAux b s) := by
  intro s
  induction s with
  | nil => intro b _; rw [collapseAux_nil]; exact noTag_nil
  | cons c cs ih =>
    intro b h
    obtain ⟨h1, h2⟩ := (noTag_cons c cs).mp h
    by_cases hc : jsSpace c = true
    · cases b
      · rw [collapseAux_ws_false c cs hc, noTag_cons]
        exact ⟨fun hlt => absurd hlt (by decide), ih true h2⟩
      · rw [collapseAux_ws_true c cs hc]
        exact ih true h2
    · have hc' : jsSpace c = false := by simpa using hc
      rw [collapseAux_nonws b c cs hc', noTag_cons]
      refine ⟨?_, ih false h2⟩
      rintro rfl hmem
      rcases collapseAux_mem cs false '>' hmem with h' | h'
      · exact absurd h' (by decide)
      · exact h1 rfl h'

theorem pre_collapseAux : ∀ (s q : List Char),
    (∀ c ∈ q, jsSpace c = false) → (∃ t, collapseAux false s = q ++ t) →
    ∃ t, s = q ++ t := by
  intro s
  induction s with
  | nil =>
    rintro q hq ⟨t, ht⟩
    rw [collapseAux_nil] at ht
    have hqnil : q = [] := (List.append_eq_nil.mp ht.symm).1
    exact ⟨[], by simp [hqnil]⟩
  | cons c cs ih =>
    rintro q hq ⟨t, ht⟩
    by_cases hc : jsSpace c = true
    · rw [collapseAux_ws_false c cs hc] at ht
      cases q with
      | nil => exact ⟨c :: cs, rfl⟩
      | cons x q' =>
        rw [List.cons_append] at ht
        have hx := ((List.cons.injEq _ _ _ _).mp ht).1
        have := hq x (List.mem_cons_self x q')
        rw [← hx] at this
        exact absurd this (by decide)
    · have hc' : jsSpace c = false := by simpa using hc
      rw [collapseAux_nonws false c cs hc'] at ht
      cases q with
      | nil => exact ⟨c :: cs, rfl⟩
      | cons x q' =>
        rw [List.cons_append] at ht
        obtain ⟨hx, hrest⟩ := (List.cons.injEq _ _ _ _).mp ht
        obtain ⟨t', ht'⟩ := ih q' (fun d hd => hq d (List.mem_cons_of_mem x hd)) ⟨t, hrest⟩
        exact ⟨t', by rw [List.cons_append, ← ht', hx]⟩

theorem occurs_collapseAux : ∀ (s : List Char) (b : Bool) (pat : List Char),
    pat ≠ [] → (∀ c ∈ pat, jsSpace c = false) →
    Occurs pat (collapseAux b s) → Occurs pat s := by
  intro s
  induction s with
  | nil =>
    intro b pat hne _ hocc
    rw [collapseAux_nil] at hocc
    exact absurd ((occurs_nil pat).mp hocc) hne
  | cons c cs ih =>
    intro b pat hne hws hocc
    by_cases hc : jsSpace c = true
    · cases b
      · rw [collapseAux_ws_false c cs hc] at hocc
        rcases (occurs_cons _ _ _).mp hocc with ⟨t, ht⟩ | h
        · cases pat with
          | nil => exact absurd rfl hne
          | cons p ps =>
            rw [List.cons_append] at ht
            have hp := ((List.cons.injEq _ _ _ _).mp ht).1
            have := hws p (List.mem_cons_self p ps)
            rw [← hp] at this
            exact absurd this (by decide)
        · exact (occurs_cons pat c cs).mpr (Or.inr (ih true pat hne hws h))
      · rw [collapseAux_ws_true c cs hc] at hocc
        exact (occurs_cons pat c cs).mpr (Or.inr (ih true pat hne hws hocc))
    · have hc' : jsSpace c = false := by simpa using hc
      rw [collapseAux_nonws b c cs hc'] at hocc
      rcases (occurs_cons _ _ _).mp hocc with ⟨t, ht⟩ | h
      · cases pat with
        | nil => exact absurd rfl hne
        | cons p ps =>
          rw [List.cons_append] at ht
          obtain ⟨hp, hrest⟩ := (List.cons.injEq _ _ _ _).mp ht
          obtain ⟨t', ht'⟩ := pre_collapseAux cs ps
            (fun d hd => hws d (List.mem_cons_of_mem p hd)) ⟨t, hrest⟩
          exact (occurs_cons _ _ _).mpr (Or.inl ⟨t', by rw [List.cons_append, ← ht', hp]⟩)
      · exact (occurs_cons pat c cs).mpr (Or.inr (ih false pat hne hws h))

theorem occurs_extend (pat t a b s : List Char) (h : s = a ++ t ++ b)
    (ht : Occurs pat t) : Occurs pat s := by
  obtain ⟨l, r, rfl⟩ := ht
  exact ⟨a ++ l, r ++ b, by simp [h, List.append_assoc]⟩

theorem noTag_middle (s t a b : List Char) (h : s = a ++ t ++ b)
    (hs : NoTag s) : NoTag t := by
  rintro ⟨l, m, r, rfl⟩
  exact hs ⟨a ++ l, m, r ++ b, by simp [h, List.append_assoc]⟩

/-- `trimWs s` sits inside `s`: a whitespace run on each side completes it. -/
theorem trimWs_decomp (s : List Char) : ∃ a b, s = a ++ trimWs s ++ b := by
  refine ⟨s.takeWhile jsSpace,
    ((s.dropWhile jsSpace).reverse.takeWhile jsSpace).reverse, ?_⟩
  conv_lhs => rw [← List.takeWhile_append_dropWhile jsSpace s]
  rw [List.append_assoc]
  congr 1
  conv_lhs => rw [← List.reverse_reverse (s.dropWhile jsSpace),
    ← List.takeWhile_append_dropWhile jsSpace (s.dropWhile jsSpace).reverse,
    List.reverse_append]
  rfl

theorem length_collapseAux_le : ∀ (s : List Char) (b : Bool),
    (collapseAux b s).length ≤ s.length := by
  intro s
  induction s with
  | nil => intro b; rw [collapseAux_nil]
  | cons c cs ih =>
    intro b
    by_cases hc : jsSpace c = true
    · cases b
      · rw [collapseAux_ws_false c cs hc]
        simpa using Nat.succ_le_succ (ih true)
      · rw [collapseAux_ws_true c cs hc]
        exact le_trans (ih true) (Nat.le_succ _)
    · have hc' : jsSpace c = false := by simpa using hc
      rw [collapseAux_nonws b c cs hc']
      simpa using Nat.succ_le_succ (ih false)

theorem length_dropWhile_le (p : Char → Bool) (s : List Char) :
    (s.dropWhile p).length ≤ s.length := by
  conv_rhs => rw [← List.takeWhile_append_dropWhile p s]
  rw [List.length_append]
  omega

theorem length_trimWs_le (s : List Char) : (trimWs s).length ≤ s.length := by
  rw [trimWs, List.length_reverse]
  exact le_trans (length_dropWhile_le jsSpace _)
    (by rw [List.length_reverse]; exact length_dropWhile_le jsSpace s)

theorem headNotWs_dropWhile (s : List Char) :
    headNotWs (s.dropWhile jsSpace) = true := by
  induction s with
  | nil => rfl
  | cons c cs ih =>
    rw [List.dropWhile_cons]
    by_cases hc : jsSpace c = true
    · rw [if_pos hc]; exact ih
    · have hc' : jsSpace c = false := by simpa using hc
      rw [if_neg (by simp [hc'])]
      simp [headNotWs, hc']

theorem dropWhile_of_headNotWs (s : List Char) (h : headNotWs s = true) :
    s.dropWhile jsSpace = s := by
  cases s with
  | nil => rfl
  | cons c cs =>
    simp only [headNotWs, Bool.not_eq_true'] at h
    rw [List.dropWhile_cons, if_neg (by simp [h])]

theorem trimWs_fixed (s : List Char) (h1 : headNotWs s = true)
    (h2 : headNotWs s.reverse = true) : trimWs s = s := by
  rw [trimWs, dropWhile_of_headNotWs s h1, dropWhile_of_headNotWs s.reverse h2,
    List.reverse_reverse]

theorem headNotWs_of_pre (t v : List Char) (h : ∃ r, v = t ++ r)
    (hv : headNotWs v = true) : headNotWs t = true := by
  obtain ⟨r, rfl⟩ := h
  cases t with
  | nil => rfl
  | cons c cs => simpa [headNotWs, List.cons_append] using hv

/-- `trimWs s` is a prefix of `s.dropWhile jsSpace`. -/
theorem trimWs_pre_dropWhile (s : List Char) :
    ∃ r, s.dropWhile jsSpace = trimWs s ++ r := by
  refine ⟨((s.dropWhile jsSpace).reverse.takeWhile jsSpace).reverse, ?_⟩
  conv_lhs => rw [← List.reverse_reverse (s.dropWhile jsSpace),
    ← List.takeWhile_append_dropWhile jsSpace (s.dropWhile jsSpace).reverse,
    List.reverse_append]
  rfl

theorem trimWs_headNotWs (s : List Char) : headNotWs (trimWs s) = true :=
  headNotWs_of_pre _ _ (trimWs_pre_dropWhile s) (headNotWs_dropWhile s)

theorem trimWs_reverse_headNotWs (s : List Char) :
    headNotWs (trimWs s).reverse = true := by
  rw [trimWs, List.reverse_reverse]
  exact headNotWs_dropWhile _

theorem collapsedB_cons (c : Char) (cs : List Char)
    (h : collapsedB (c :: cs) = true) : collapsedB cs = true := by
  rw [collapsedB, Bool.and_eq_true] at h
  exact h.2

theorem collapsedB_append_left : ∀ (xs ys : List Char),
    collapsedB (xs ++ ys) = true → collapsedB xs = true := by
  intro xs
  induction xs with
  | nil => intro ys _; rfl
  | cons c xs' ih =>
    intro ys h
    rw [List.cons_append, collapsedB, Bool.and_eq_true] at h
    obtain ⟨hg, hrest⟩ := h
    rw [collapsedB, Bool.and_eq_true]
    refine ⟨?_, ih ys hrest⟩
    by_cases hc : jsSpace c = true
    · rw [if_pos hc] at hg ⊢
      rw [Bool.and_eq_true] at hg ⊢
      refine ⟨hg.1, ?_⟩
      cases xs' with
      | nil => rfl
      | cons d ds => simpa [headNotWs, List.cons_append] using hg.2
    · rw [if_neg hc]

theorem collapsedB_dropWhile (s : List Char) (h : collapsedB s = true) :
    collapsedB (s.dropWhile jsSpace) = true := by
  induction s with
  | nil => exact h
  | cons c cs ih =>
    rw [List.dropWhile_cons]
    by_cases hc : jsSpace c = true
    · rw [if_pos hc]
      exact ih (collapsedB_cons c cs h)
    · rw [if_neg hc]
      exact h

theorem collapseAux_true_headNotWs : ∀ s : List Char,
    headNotWs (collapseAux true s) = true := by
  intro s
  induction s with
  | nil => rfl
  | cons c cs ih =>
    by_cases hc : jsSpace c = true
    · rw [collapseAux_ws_true c cs hc]; exact ih
    · have hc' : jsSpace c = false := by simpa using hc
      rw [collapseAux_nonws true c cs hc']
      simp [headNotWs, hc']

theorem collapsedB_collapseAux : ∀ (s : List Char) (b : Bool),
    collapsedB (collapseAux b s) = true := by
  intro s
  induction s with
  | nil => intro b; rw [collapseAux_nil]; rfl
  | cons c cs ih =>
    intro b
    by_cases hc : jsSpace c = true
    · cases b
      · rw [collapseAux_ws_false c cs hc, collapsedB, Bool.and_eq_true]
        refine ⟨?_, ih true⟩
        rw [if_pos (by decide), Bool.and_eq_true]
        exact ⟨by decide, collapseAux_true_headNotWs cs⟩
      · rw [collapseAux_ws_true c cs hc]
        exact ih true
    · have hc' : jsSpace c = false := by simpa using hc
      rw [collapseAux_nonws b c cs hc', collapsedB, Bool.and_eq_true]
      exact ⟨by rw [if_neg (by simp [hc'])], ih false⟩

theorem collapseAux_fix : ∀ t : List Char, collapsedB t = true →
    collapseAux false t = t ∧ (headNotWs t = true → collapseAux true t = t) := by
  intro t
  induction t with
  | nil => intro _; exact ⟨rfl, fun _ => rfl⟩
  | cons c cs ih =>
    intro h
    rw [collapsedB, Bool.and_eq_true] at h
    obtain ⟨hg, hrest⟩ := h
    by_cases hc : jsSpace c = true
    · rw [if_pos hc, Bool.and_eq_true] at hg
      obtain ⟨hsp, hhd⟩ := hg
      have hceq : c = ' ' := by simpa using hsp
      refine ⟨?_, ?_⟩
      · rw [collapseAux_ws_false c cs hc, (ih hrest).2 hhd, hceq]
      · intro hhead
        rw [headNotWs, hc] at hhead
        exact absurd hhead (by decide)
    · have hc' : jsSpace c = false := by simpa using hc
      have h1 := (ih hrest).1
      exact ⟨by rw [collapseAux_nonws false c cs hc', h1],
        fun _ => by rw [collapseAux_nonws true c cs hc', h1]⟩

theorem collapsedB_trimWs (s : List Char) (h : collapsedB s = true) :
    collapsedB (trimWs s) = true := by
  obtain ⟨r, hr⟩ := trimWs_pre_dropWhile s
  exact collapsedB_append_left _ r (hr ▸ collapsedB_dropWhile s h)

/-- C5: on already-clean plain text (no tag substring, no occurrence of the
six decoded entities, at most 500 characters) `cleanDescription` is
idempotent. -/
theorem c5_idempotent_on_clean_text (s : List Char)
    (htag : hasTag s = false)
    (hamp : occursB ampPat s = false) (hlt : occursB ltPat s = false)
    (hgt : occursB gtPat s = false) (hquot : occursB quotPat s = false)
    (hapos : occursB aposPat s = false) (hnbsp : occursB nbspPat s = false)
    (hlen : s.length ≤ 500) :
    cleanDescription (cleanDescription s) = cleanDescription s := by
  by_cases hs : s = []
  · subst hs; rfl
  have nt : NoTag s := (hasTag_eq_false s).mp htag
  have hampO := (occursB_eq_false ampPat s).mp hamp
  have hltO := (occursB_eq_false ltPat s).mp hlt
  have hgtO := (occursB_eq_false gtPat s).mp hgt
  have hquotO := (occursB_eq_false quotPat s).mp hquot
  have haposO := (occursB_eq_false aposPat s).mp hapos
  have hnbspO := (occursB_eq_false nbspPat s).mp hnbsp
  have hstrip : stripTags s = s := stripTags_id s nt
  have hdec : decodeEntities s = s :=
    decodeEntities_id s hampO hltO hgtO hquotO haposO hnbspO
  have hsan : sanitize s = trimWs (collapseWs s) := by
    rw [sanitize, hstrip, hdec]
  have htlen : (trimWs (collapseWs s)).length ≤ 500 :=
    le_trans (length_trimWs_le _) (le_trans (length_collapseAux_le s false) hlen)
  have hcds : cleanDescription s = trimWs (collapseWs s) := by
    rw [cleanDescription, if_neg hs, hsan, if_neg (by omega)]
  obtain ⟨a, b, hab⟩ := trimWs_decomp (collapseWs s)
  have ntt : NoTag (trimWs (collapseWs s)) :=
    noTag_middle _ _ _ _ hab (noTag_collapseAux s false nt)
  have hOt : ∀ pat : List Char, pat ≠ [] → (∀ c ∈ pat, jsSpace c = false) →
      ¬ Occurs pat s → ¬ Occurs pat (trimWs (collapseWs s)) := by
    intro pat hne hws hnocc hocc
    exact hnocc (occurs_collapseAux s false pat hne hws
      (occurs_extend pat _ a b _ hab hocc))
  have hstript : stripTags (trimWs (collapseWs s)) = trimWs (collapseWs s) :=
    stripTags_id _ ntt
  have hdect : decodeEntities (trimWs (collapseWs s)) = trimWs (collapseWs s) :=
    decodeEntities_id _
      (hOt ampPat (by decide) (by decide) hampO)
      (hOt ltPat (by decide) (by decide) hltO)
      (hOt gtPat (by decide) (by decide) hgtO)
      (hOt quotPat (by decide) (by decide) hquotO)
      (hOt aposPat (by decide) (by decide) haposO)
      (hOt nbspPat (by decide) (by decide) hnbspO)
  have hcol : collapsedB (trimWs (collapseWs s)) = true :=
    collapsedB_trimWs _ (collapsedB_collapseAux s false)
  have hsant : sanitize (trimWs (collapseWs s)) = trimWs (collapseWs s) := by
    rw [sanitize, hstript, hdect]
    show trimWs (collapseWs (trimWs (collapseWs s))) = _
    rw [show collapseWs (trimWs (collapseWs s)) = trimWs (collapseWs s) from
      (collapseAux_fix _ hcol).1]
    exact trimWs_fixed _ (trimWs_headNotWs _) (trimWs_reverse_headNotWs _)
  have hcdt : cleanDescription (trimWs (collapseWs s)) = trimWs (collapseWs s) := by
    by_cases ht0 : trimWs (collapseWs s) = []
    · rw [ht0]; rfl
    · rw [cleanDescription, if_neg ht0, hsant, if_neg (by omega)]
  rw [hcds, hcdt]

/-- Witness for `c5_idempotent_on_clean_text` on the clean text `"ab cd"`. -/
theorem c5_idempotent_on_clean_text_witness :
    hasTag ("ab cd".toList) = false ∧
    occursB ampPat ("ab cd".toList) = false ∧
    occursB ltPat ("ab cd".toList) = false ∧
    occursB gtPat ("ab cd".toList) = false ∧
    occursB quotPat ("ab cd".toList) = false ∧
    occursB aposPat ("ab cd".toList) = false ∧
    occursB nbspPat ("ab cd".toList) = false ∧
    ("ab cd".toList).length ≤ 500 ∧
    cleanDescription (cleanDescription ("ab cd".toList)) =
      cleanDescription ("ab cd".toList) :=
  ⟨by decide, by decide, by decide, by decide, by decide, by decide, by decide,
    by decide,
    c5_idempotent_on_clean_text ("ab cd".toList) (by decide) (by decide)
      (by decide) (by decide) (by decide) (by decide) (by decide) (by decide)⟩

/-- C3: `cleanDescription` output never exceeds 500 characters, and when
the sanitized form exceeds 500 characters the output is exactly its first
497 characters followed by the three-character ellipsis marker. -/
theorem c3_truncation (html : List Char) :
    (cleanDescription html).length ≤ 500 ∧
    (500 < (sanitize html).length →
      cleanDescription html = (sanitize html).take 497 ++ ellipsis) := by
  constructor
  · rw [cleanDescription]
    split
    · simp
    · split
      · next h =>
        rw [List.length_append, List.length_take, Nat.min_eq_left (by omega)]
        simp [ellipsis]
      · next h => omega
  · intro h
    have hne : html ≠ [] := by
      intro he
      subst he
      have hsan : sanitize ([] : List Char) = [] := rfl
      rw [hsan] at h
      simp at h
    rw [cleanDescription, if_neg hne, if_pos h]

set_option maxRecDepth 4000 in
/-- Witness for `c3_truncation`: 501 copies of `'a'` sanitize to themselves
and get truncated to 497 characters plus `"..."`. -/
theorem c3_truncation_witness :
    500 < (sanitize (List.replicate 501 'a')).length ∧
    cleanDescription (List.replicate 501 'a') =
      (sanitize (List.replicate 501 'a')).take 497 ++ ellipsis :=
  ⟨by decide, (c3_truncation (List.replicate 501 'a')).2 (by decide)⟩

/-- C1 (counterexample): with an all-empty config, the generated channel's
default title is the Turkish literal `"Mağaza Ürünleri"`, not the literal
`"Store Products"` the claim states, and the default description is
`"Mağazamızdaki tüm ürünler"`, not `"All products in our store"`. -/
theorem c1_counterexample :
    (generateRSS (fun s => s) "" [] ⟨"", "", "", ""⟩).title = "Mağaza Ürünleri" ∧
    (generateRSS (fun s => s) "" [] ⟨"", "", "", ""⟩).title ≠ "Store Products" ∧
    (generateRSS (fun s => s) "" [] ⟨"", "", "", ""⟩).description = "Mağazamızdaki tüm ürünler" ∧
    (generateRSS (fun s => s) "" [] ⟨"", "", "", ""⟩).description ≠ "All products in our store" := by
  refine ⟨rfl, ?_, rfl, ?_⟩ <;> decide

/-- C1 (amended): in the generated channel, an empty FeedConfig field falls
back to its literal default: title `"Mağaza Ürünleri"`, description
`"Mağazamızdaki tüm ürünler"`, link the placeholder storefront URL
`"https://shop.myshopify.com"`, language `"tr"`. -/
theorem c1_channel_defaults (fmtDate : String → String) (now : String)
    (products : List Product) (config : FeedConfig) :
    (config.title = "" →
      (generateRSS fmtDate now products config).title = "Mağaza Ürünleri") ∧
    (config.description = "" →
      (generateRSS fmtDate now products config).description = "Mağazamızdaki tüm ürünler") ∧
    (config.link = "" →
      (generateRSS fmtDate now products config).link = "https://shop.myshopify.com") ∧
    (config.language = "" →
      (generateRSS fmtDate now products config).language = "tr") := by
  refine ⟨fun h => ?_, fun h => ?_, fun h => ?_, fun h => ?_⟩ <;>
    simp [generateRSS, h]

/-- Witness for `c1_channel_defaults` at the all-empty config. -/
theorem c1_channel_defaults_witness :
    (generateRSS (fun s => s) "now" [] ⟨"", "", "", ""⟩).title = "Mağaza Ürünleri" ∧
    (generateRSS (fun s => s) "now" [] ⟨"", "", "", ""⟩).description = "Mağazamızdaki tüm ürünler" ∧
    (generateRSS (fun s => s) "now" [] ⟨"", "", "", ""⟩).link = "https://shop.myshopify.com" ∧
    (generateRSS (fun s => s) "now" [] ⟨"", "", "", ""⟩).language = "tr" := by
  have h := c1_channel_defaults (fun s => s) "now" [] ⟨"", "", "", ""⟩
  exact ⟨h.1 rfl, h.2.1 rfl, h.2.2.1 rfl, h.2.2.2 rfl⟩

/-- C2: `generateRSS` emits exactly one item per input product, in input
order: the item list has the input's length, and its `i`-th entry is
exactly `createRSSItem` of the `i`-th input product (nothing filtered,
duplicated or re-sorted). -/
theorem c2_one_item_per_product (fmtDate : String → String) (now : String)
    (products : List Product) (config : FeedConfig) :
    (generateRSS fmtDate now products config).items.length = products.length ∧
    ∀ i : Nat, (generateRSS fmtDate now products config).items.get? i =
      (products.get? i).map (fun product => createRSSItem fmtDate product config) := by
  refine ⟨?_, fun i => ?_⟩ <;> simp [generateRSS]

/-- C6: when the shop domain or access token is missing from the
environment, all three data endpoints return the fixed 500 error response
and perform zero upstream `getAllProducts` calls. -/
theorem c6_missing_config_short_circuits (fmtDate : String → String) (now : String)
    (env : Env) (upstream : Except String (List Product))
    (h : env.shopDomain = "" ∨ env.accessToken = "") :
    rssHandler fmtDate now env upstream =
      (.err 500 configErrorLabel configErrorMessage, 0) ∧
    pinterestHandler fmtDate now env upstream =
      (.err 500 configErrorLabel configErrorMessage, 0) ∧
    countHandler env upstream =
      (.err 500 configErrorLabel configErrorMessage, 0) := by
  refine ⟨?_, ?_, ?_⟩ <;>
    simp [rssHandler, pinterestHandler, countHandler, h]

/-- Witness for `c6_missing_config_short_circuits`: empty domain, token set. -/
theorem c6_missing_config_short_circuits_witness :
    rssHandler (fun s => s) "now" ⟨"", "token", "", ""⟩ (Except.ok []) =
      (.err 500 configErrorLabel configErrorMessage, 0) ∧
    pinterestHandler (fun s => s) "now" ⟨"", "token", "", ""⟩ (Except.ok []) =
      (.err 500 configErrorLabel configErrorMessage, 0) ∧
    countHandler ⟨"", "token", "", ""⟩ (Except.ok []) =
      (.err 500 configErrorLabel configErrorMessage, 0) :=
  c6_missing_config_short_circuits (fun s => s) "now" ⟨"", "token", "", ""⟩
    (Except.ok []) (Or.inl rfl)

/-- C7: an item with no images carries neither `media:content` nor
`media:thumbnail`; an item with images carries one `media:content` entry
per image (its URL, type `"image/jpeg"`, medium `"image"`) and a
`media:thumbnail` with the first image's URL. -/
theorem c7_media_fields (fmtDate : String → String) (p : Product)
    (config : FeedConfig) :
    (p.images = [] →
      (createRSSItem fmtDate p config).mediaContent = none ∧
      (createRSSItem fmtDate p config).mediaThumbnail = none) ∧
    ∀ image rest, p.images = image :: rest →
      (createRSSItem fmtDate p config).mediaContent =
        some ((image :: rest).map (fun i => ⟨i.src, "image/jpeg", "image"⟩)) ∧
      (createRSSItem fmtDate p config).mediaThumbnail = some image.src := by
  refine ⟨fun h => ?_, fun image rest h => ?_⟩ <;> simp [createRSSItem, h]

/-- Witness for `c7_media_fields`: a zero-image and a one-image product. -/
theorem c7_media_fields_witness :
    ((createRSSItem (fun s => s) ⟨"t", "", "", "h", "u", [], [], "", ""⟩
        ⟨"", "", "", ""⟩).mediaContent = none ∧
      (createRSSItem (fun s => s) ⟨"t", "", "", "h", "u", [], [], "", ""⟩
        ⟨"", "", "", ""⟩).mediaThumbnail = none) ∧
    (createRSSItem (fun s => s) ⟨"t", "", "", "h", "u", [⟨"https://img/1.jpg"⟩], [], "", ""⟩
        ⟨"", "", "", ""⟩).mediaContent =
      some [⟨"https://img/1.jpg", "image/jpeg", "image"⟩] ∧
    (createRSSItem (fun s => s) ⟨"t", "", "", "h", "u", [⟨"https://img/1.jpg"⟩], [], "", ""⟩
        ⟨"", "", "", ""⟩).mediaThumbnail = some "https://img/1.jpg" := by
  refine ⟨(c7_media_fields _ _ _).1 rfl, ?_, ?_⟩
  · exact ((c7_media_fields _ _ _).2 ⟨"https://img/1.jpg"⟩ [] rfl).1
  · exact ((c7_media_fields _ _ _).2 ⟨"https://img/1.jpg"⟩ [] rfl).2

/-- C8 (counterexample): a trailing comma does NOT get dropped: tags
`"a,b,"` yield subjects `["a", "b", ""]`, not `["a", "b"]`. -/
theorem c8_counterexample :
    (createRSSItem (fun s => s) ⟨"t", "", "", "h", "u", [], [], "", "a,b,"⟩
      ⟨"", "", "", ""⟩).subject = some ["a", "b", ""] ∧
    (createRSSItem (fun s => s) ⟨"t", "", "", "h", "u", [], [], "", "a,b,"⟩
      ⟨"", "", "", ""⟩).subject ≠ some ["a", "b"] := by
  constructor <;> decide

/-- C8 (amended): tags `"a, b ,c"` yield subjects exactly `["a","b","c"]`
(split on commas, segments trimmed, order preserved); empty or absent tags
omit the subject field; but empty segments from a trailing comma are kept
as empty strings, so `"a,b,"` yields `["a","b",""]`. -/
theorem c8_tag_splitting (fmtDate : String → String) (p : Product)
    (config : FeedConfig) :
    (p.tags = "a, b ,c" →
      (createRSSItem fmtDate p config).subject = some ["a", "b", "c"]) ∧
    (p.tags = "" → (createRSSItem fmtDate p config).subject = none) ∧
    (p.tags = "a,b," →
      (createRSSItem fmtDate p config).subject = some ["a", "b", ""]) := by
  refine ⟨fun h => ?_, fun h => ?_, fun h => ?_⟩ <;> simp [createRSSItem, h] <;> decide

/-- Witness for `c8_tag_splitting` at concrete products. -/
theorem c8_tag_splitting_witness :
    (createRSSItem (fun s => s) ⟨"t", "", "", "h", "u", [], [], "", "a, b ,c"⟩
      ⟨"", "", "", ""⟩).subject = some ["a", "b", "c"] ∧
    (createRSSItem (fun s => s) ⟨"t", "", "", "h", "u", [], [], "", ""⟩
      ⟨"", "", "", ""⟩).subject = none ∧
    (createRSSItem (fun s => s) ⟨"t", "", "", "h", "u", [], [], "", "a,b,"⟩
      ⟨"", "", "", ""⟩).subject = some ["a", "b", ""] := by
  refine ⟨?_, ?_, ?_⟩
  · exact (c8_tag_splitting _ _ _).1 rfl
  · exact (c8_tag_splitting _ _ _).2.1 rfl
  · exact (c8_tag_splitting _ _ _).2.2 rfl

/-- C9: on the success path the `/rss/pinterest` handler returns exactly
what the `/rss` handler returns — same channel built by the same
`generateRSS` call with the same config, no Pinterest-specific formatting
(and the same upstream call count). -/
theorem c9_pinterest_feed_equals_rss (fmtDate : String → String) (now : String)
    (env : Env) (products : List Product) :
    pinterestHandler fmtDate now env (Except.ok products) =
      rssHandler fmtDate now env (Except.ok products) := by
  by_cases h : env.shopDomain = "" ∨ env.accessToken = "" <;>
    simp [pinterestHandler, rssHandler, h]

theorem splitOnComma_ne_nil : ∀ s : List Char, splitOnComma s ≠ [] := by
  intro s
  cases s with
  | nil => simp [splitOnComma]
  | cons c cs =>
    rw [splitOnComma]
    by_cases hc : (c == ',') = true
    · simp [hc]
    · cases h : splitOnComma cs <;> simp [hc, h]

theorem splitOnComma_cons_comma (cs : List Char) :
    splitOnComma (',' :: cs) = [] :: splitOnComma cs := by
  simp [splitOnComma]

theorem splitOnComma_cons_ne (c : Char) (cs t : List Char) (ts : List (List Char))
    (hc : (c == ',') = false) (h : splitOnComma cs = t :: ts) :
    splitOnComma (c :: cs) = (c :: t) :: ts := by
  rw [splitOnComma, if_neg (by simp [hc]), h]

/-- The split list always has one more entry than the string has commas:
no segment, empty or not, is ever dropped. -/
theorem splitOnComma_length : ∀ s : List Char,
    (splitOnComma s).length = s.count ',' + 1 := by
  intro s
  induction s with
  | nil => rfl
  | cons c cs ih =>
    by_cases hc : (c == ',') = true
    · have hceq : c = ',' := by simpa using hc
      subst hceq
      rw [splitOnComma_cons_comma, List.length_cons, ih]
      simp [List.count_cons]
    · have hc' : (c == ',') = false := by simpa using hc
      rcases hsplit : splitOnComma cs with _ | ⟨t, rest⟩
      · exact absurd hsplit (splitOnComma_ne_nil cs)
      · have hcount : (c :: cs).count ',' = cs.count ',' := by
          simp [List.count_cons, hc']
        rw [splitOnComma_cons_ne c _ _ _ hc' hsplit, hcount, ← ih, hsplit]
        rfl

/-- A trailing comma contributes a final empty segment. -/
theorem splitOnComma_concat_comma : ∀ ts : List Char,
    splitOnComma (ts ++ [',']) = splitOnComma ts ++ [[]] := by
  intro ts
  induction ts with
  | nil => rfl
  | cons c ts' ih =>
    by_cases hc : (c == ',') = true
    · have hceq : c = ',' := by simpa using hc
      subst hceq
      rw [List.cons_append, splitOnComma_cons_comma, ih, splitOnComma_cons_comma,
        List.cons_append]
    · have hc' : (c == ',') = false := by simpa using hc
      rcases hsplit : splitOnComma ts' with _ | ⟨t, rest⟩
      · exact absurd hsplit (splitOnComma_ne_nil ts')
      · have h2 : splitOnComma (ts' ++ [',']) = t :: (rest ++ [[]]) := by
          rw [ih, hsplit, List.cons_append]

        rw [List.cons_append, splitOnComma_cons_ne c _ _ _ hc' h2,
          splitOnComma_cons_ne c _ _ _ hc' hsplit, List.cons_append]

/-- Two consecutive commas contribute an empty segment at the position
right after the segments coming from the text before them. -/
theorem splitOnComma_double_comma : ∀ (u v : List Char),
    (splitOnComma (u ++ (',' :: (',' :: v)))).get? (u.count ',' + 1) = some [] := by
  intro u
  induction u with
  | nil =>
    intro v
    rw [List.nil_append, splitOnComma_cons_comma, splitOnComma_cons_comma]
    rfl
  | cons c u' ih =>
    intro v
    by_cases hc : (c == ',') = true
    · have hceq : c = ',' := by simpa using hc
      subst hceq
      rw [List.cons_append, splitOnComma_cons_comma]
      have hcount : (',' :: u').count ',' = u'.count ',' + 1 := by
        simp [List.count_cons]
      rw [hcount, List.get?_cons_succ]
      exact ih v
    · have hc' : (c == ',') = false := by simpa using hc
      rcases hsplit : splitOnComma (u' ++ (',' :: (',' :: v))) with _ | ⟨t, rest⟩
      · exact absurd hsplit (splitOnComma_ne_nil _)
      · rw [List.cons_append, splitOnComma_cons_ne c _ _ _ hc' hsplit]
        have hcount : (c :: u').count ',' = u'.count ',' := by
          simp [List.count_cons, hc']
        rw [hcount, List.get?_cons_succ]
        have hres := ih v
        rw [hsplit, List.get?_cons_succ] at hres
        exact hres

/-- C10: for every item with a non-empty tags string, the subject list
keeps every comma-separated segment: it has exactly one entry per segment
(commas + 1, so empty tokens are never filtered out), a trailing comma
always yields a final empty-string subject, and any pair of consecutive
commas yields an empty-string subject at the corresponding position. -/
theorem c10_empty_segments_preserved (fmtDate : String → String) (p : Product)
    (config : FeedConfig) (h0 : p.tags ≠ "") :
    ∃ l, (createRSSItem fmtDate p config).subject = some l ∧
      l.length = p.tags.toList.count ',' + 1 ∧
      (∀ ts, p.tags.toList = ts ++ [','] → l.getLast? = some "") ∧
      ∀ u v, p.tags.toList = u ++ (',' :: (',' :: v)) →
        l.get? (u.count ',' + 1) = some "" := by
  refine ⟨splitTags p.tags, by simp [createRSSItem, h0], ?_, ?_, ?_⟩
  · rw [splitTags, List.length_map, splitOnComma_length]
  · intro ts hts
    have hmap : (splitOnComma ts ++ [[]]).map (fun t => String.mk (trimWs t)) =
        (splitOnComma ts).map (fun t => String.mk (trimWs t)) ++ [""] := by
      rw [List.map_append]
      congr 1
    rw [splitTags, hts, splitOnComma_concat_comma, hmap, List.getLast?_concat]
  · intro u v huv
    rw [splitTags, huv, List.get?_map, splitOnComma_double_comma]
    decide

/-- Witness for `c10_empty_segments_preserved`: tags `"a,,b,"` yield four
subjects, the last one empty (trailing comma) and the one at index 1 empty
(consecutive commas). -/
theorem c10_empty_segments_preserved_witness :
    ∃ l, (createRSSItem (fun s => s) ⟨"t", "", "", "h", "u", [], [], "", "a,,b,"⟩
        ⟨"", "", "", ""⟩).subject = some l ∧
      l.length = 4 ∧ l.getLast? = some "" ∧ l.get? 1 = some "" := by
  obtain ⟨l, h1, h2, h3, h4⟩ :=
    c10_empty_segments_preserved (fun s => s)
      ⟨"t", "", "", "h", "u", [], [], "", "a,,b,"⟩ ⟨"", "", "", ""⟩ (by decide)
  refine ⟨l, h1, ?_, h3 ("a,,b".toList) (by decide), h4 ['a'] ['b', ','] (by decide)⟩
  rw [h2]
  decide

end SimpleRSS
